import Mathlib

set_option autoImplicit false

/-!
# Verification of the `json_builder` path-write engine

This file gives a shallow embedding of `src/json_builder.py` and settles the
frozen claims about it.  JSON trees are modelled as an inductive value type,
Python's in-place mutation is modelled by explicit state passing: each
component application returns the updated subtree together with the child the
source function returned (a reference into the updated subtree), and the
walker splices updated subtrees back along the descent path, which is exactly
what reference semantics does for an acyclic tree.
-/

/-- A JSON-compatible Python value.  `notSet` models an instance of the
source's `NotSet` sentinel class (and, for the serializability checks, stands
for any Python object `json.dumps` rejects).  Mapping keys keep Python's
`dict` semantics: first occurrence wins on lookup, updates keep position,
fresh keys append at the end. -/
inductive JVal where
  | null
  | bool (b : Bool)
  | num (n : Int)
  | str (s : List Char)
  | arr (xs : List JVal)
  | obj (m : List (List Char × JVal))
  | notSet

/-- `JsonBuilder.__check_json` (src lines 103-114): `json.dumps` succeeds iff
no non-JSON object (modelled by `notSet`) occurs in the tree. -/
def serializable : JVal → Bool
  | .null => true
  | .bool _ => true
  | .num _ => true
  | .str _ => true
  | .notSet => false
  | .arr [] => true
  | .arr (x :: xs) => serializable x && serializable (.arr xs)
  | .obj [] => true
  | .obj ((_, v) :: m) => serializable v && serializable (.obj m)

/-- Whether the `NotSet` sentinel occurs anywhere in a tree. -/
def occursNotSet : JVal → Bool
  | .null => false
  | .bool _ => false
  | .num _ => false
  | .str _ => false
  | .notSet => true
  | .arr [] => false
  | .arr (x :: xs) => occursNotSet x || occursNotSet (.arr xs)
  | .obj [] => false
  | .obj ((_, v) :: m) => occursNotSet v || occursNotSet (.obj m)

/-- Is the value a Python `dict`? -/
def JVal.isObj : JVal → Bool
  | .obj _ => true
  | _ => false

/-- A parsed path component: `ComponentKey` holds a key string,
`ComponentIndex` holds the integer parsed from a bracketed index. -/
inductive Component where
  | key (k : List Char)
  | idx (i : Nat)
deriving DecidableEq

/-- The error taxonomy of the source: `typeMismatch` is the `TypeError`
raised by `ComponentKey.add`/`ComponentIndex.add`, `indexGap` the
`IndexError` of `ComponentIndex.add`, `notSerializable` the `TypeError` of
`__check_json`, `invalidPath` the `ValueError` of `__check_path`. -/
inductive JBError where
  | typeMismatch
  | indexGap
  | notSerializable
  | invalidPath
deriving DecidableEq

/-- Which node a component's `add` returned: the node itself (`stay`), or the
child sitting at a key / index of the updated node. -/
inductive Step where
  | stay
  | intoKey (k : List Char)
  | intoIdx (i : Nat)
deriving DecidableEq

/-- Python `root[key]` lookup on a dict (first matching key). -/
def objGet (m : List (List Char × JVal)) (k : List Char) : Option JVal :=
  match m with
  | [] => none
  | (k2, v) :: rest => if k2 = k then some v else objGet rest k

/-- Python `root[key] = v` on a dict: replace in place if the key exists,
else append the new entry at the end (insertion order). -/
def objSet (m : List (List Char × JVal)) (k : List Char) (v : JVal) :
    List (List Char × JVal) :=
  match m with
  | [] => [(k, v)]
  | (k2, v2) :: rest => if k2 = k then (k, v) :: rest else (k2, v2) :: objSet rest k v

/-- `ComponentKey.add` (src lines 30-59) and `ComponentIndex.add`
(src lines 68-98), dispatched on the component kind.  `value = none` models
passing a `NotSet()` instance, `some v` a concrete value.  On success the
result is the updated node together with the child the source returned. -/
def componentAdd (c : Component) (node : JVal) (next : Option Component)
    (value : Option JVal) : Except JBError (JVal × Step) :=
  match c with
  | .key k =>
    match node with
    | .obj m =>
      if k = ['$'] then .ok (.obj m, .stay)
      else
        match value with
        | some v => .ok (.obj (objSet m k v), .stay)
        | none =>
          match objGet m k with
          | some _ => .ok (.obj m, .intoKey k)
          | none =>
            match next with
            | some (.idx _) => .ok (.obj (objSet m k (.arr [])), .intoKey k)
            | _ => .ok (.obj (objSet m k (.obj [])), .intoKey k)
    | _ => .error .typeMismatch
  | .idx i =>
    match node with
    | .arr xs =>
      if xs.length < i then .error .indexGap
      else
        let xs1 := if xs.length = i then xs ++ [.notSet] else xs
        match value with
        | some v => .ok (.arr (xs1.set i v), .intoIdx i)
        | none =>
          match next with
          | some (.key _) => .ok (.arr (xs1 ++ [.obj []]), .intoIdx i)
          | _ => .ok (.arr (xs1 ++ [.arr []]), .intoIdx i)
    | _ => .error .typeMismatch

/-- The traversal loop of `JsonBuilder.add` (src lines 161-178): process the
component list with one-step lookahead, passing the real value only to the
last component; on an error stop and keep the mutations made so far.  The
returned tree is the final state of `root`. -/
def runComponents : List Component → JVal → JVal → Option JBError × JVal
  | [], node, _ => (none, node)
  | c :: rest, node, value =>
    let passed := if rest.isEmpty then some value else none
    match componentAdd c node rest.head? passed with
    | .error e => (some e, node)
    | .ok (node2, .stay) => runComponents rest node2 value
    | .ok (node2, .intoKey k) =>
      match node2 with
      | .obj m =>
        match objGet m k with
        | some child =>
          let res := runComponents rest child value
          (res.1, .obj (objSet m k res.2))
        | none => (none, node2)
      | _ => (none, node2)
    | .ok (node2, .intoIdx i) =>
      match node2 with
      | .arr xs =>
        match xs[i]? with
        | some child =>
          let res := runComponents rest child value
          (res.1, .arr (xs.set i res.2))
        | none => (none, node2)
      | _ => (none, node2)

/-- `[a-zA-Z0-9]` of the path-validation regex (ASCII, as in Python). -/
def isAlnum (c : Char) : Bool :=
  c.isAlpha || c.isDigit

mutual

/-- Recursive-descent scanner for the source's path regex
`^\$((\.[a-zA-Z0-9]+)*((\[[0-9]+\])+)*)*` under `re.fullmatch`
(src line 128): after the leading `$`, the string is any sequence of atoms
`.<alnum>+` or `[<digit>+]`.  `scanAtom` is the accepting between-atoms
state; `scanName1` expects the first of one-or-more name characters;
`scanDigit1` the first of one-or-more digits inside brackets. -/
def scanAtom : List Char → Bool
  | [] => true
  | c :: rest =>
    if c = '.' then scanName1 rest
    else if c = '[' then scanDigit1 rest
    else false

/-- See `scanAtom`. -/
def scanName1 : List Char → Bool
  | [] => false
  | c :: rest => isAlnum c && scanNameMore rest

/-- See `scanAtom`. -/
def scanNameMore : List Char → Bool
  | [] => true
  | c :: rest =>
    if isAlnum c then scanNameMore rest
    else if c = '.' then scanName1 rest
    else if c = '[' then scanDigit1 rest
    else false

/-- See `scanAtom`. -/
def scanDigit1 : List Char → Bool
  | [] => false
  | c :: rest => c.isDigit && scanDigitMore rest

/-- See `scanAtom`. -/
def scanDigitMore : List Char → Bool
  | [] => false
  | c :: rest =>
    if c.isDigit then scanDigitMore rest
    else if c = ']' then scanAtom rest
    else false

end

/-- `JsonBuilder.__check_path` (src lines 116-131): `re.fullmatch` of the
path regex, i.e. a leading `$` followed by the atom language. -/
def checkPath (cs : List Char) : Bool :=
  match cs with
  | c :: rest => c == '$' && scanAtom rest
  | [] => false

/-- Python `json_path.split(".")`: split on every dot, keeping empty
segments. -/
def splitDot : List Char → List (List Char)
  | [] => [[]]
  | c :: rest =>
    if c = '.' then [] :: splitDot rest
    else
      match splitDot rest with
      | s :: ss => (c :: s) :: ss
      | [] => [[c]]

/-- The character class `[0-9a-xA-X\$]` of the segment regexes in
`__get_path_components` (src lines 138-139).  Note the source really stops
at `x`/`X`, not `z`/`Z`. -/
def isSegClass (c : Char) : Bool :=
  c.isDigit || decide (97 ≤ c.toNat ∧ c.toNat ≤ 120) ||
    decide (65 ≤ c.toNat ∧ c.toNat ≤ 88) || c == '$'

/-- `re.fullmatch(r"[0-9a-xA-X\$]+\[.*\]$", item)` (src line 138): a
non-empty class prefix, then `[`, then any newline-free characters ending in
a final `]`.  Since no class character is `[`, the class prefix is exactly
the maximal one. -/
def segMatches (item : List Char) : Bool :=
  match item.dropWhile isSegClass with
  | c :: rest =>
    c == '[' && !(item.takeWhile isSegClass).isEmpty && !rest.isEmpty &&
      rest.getLast? == some ']' && !(rest.dropLast.contains '\n')
  | [] => false

/-- Helper for `digitRuns`: accumulate the current digit run. -/
def digitRunsAux : List Char → List Char → List (List Char)
  | [], acc => if acc.isEmpty then [] else [acc.reverse]
  | c :: rest, acc =>
    if c.isDigit then digitRunsAux rest (c :: acc)
    else if acc.isEmpty then digitRunsAux rest []
    else acc.reverse :: digitRunsAux rest []

/-- `re.findall(r"\d+", item)` (src line 141): the maximal digit runs of the
whole segment, in order — including digits occurring in the name part. -/
def digitRuns (cs : List Char) : List (List Char) :=
  digitRunsAux cs []

/-- Python `int` on a digit string. -/
def natOfDigits (ds : List Char) : Nat :=
  ds.foldl (fun acc c => 10 * acc + (c.toNat - 48)) 0

/-- The per-segment branch of `__get_path_components` (src lines 137-143). -/
def segComponents (item : List Char) : List Component :=
  if segMatches item then
    Component.key (item.takeWhile isSegClass) ::
      (digitRuns item).map (fun r => Component.idx (natOfDigits r))
  else [Component.key item]

/-- `JsonBuilder.__get_path_components` (src lines 134-145). -/
def parseComponents (path : List Char) : List Component :=
  ((splitDot path).map segComponents).flatten

/-- `JsonBuilder.add` (src lines 148-178).  Returns the error raised (if
any) together with the final state of `root` — the source mutates `root` in
place, so on an error the tree keeps the mutations made before the failing
step. -/
def JsonBuilder.add (root : JVal) (jsonPath : String) (value : JVal) :
    Option JBError × JVal :=
  if serializable root = false then (some .notSerializable, root)
  else if checkPath jsonPath.data = false then (some .invalidPath, root)
  else if serializable value = false then (some .notSerializable, root)
  else runComponents (parseComponents jsonPath.data) root value

/-- Unfolding `JsonBuilder.add` when all the up-front checks pass. -/
theorem add_eq_run (root : JVal) (path : String) (v : JVal)
    (hr : serializable root = true) (hp : checkPath path.data = true)
    (hv : serializable v = true) :
    JsonBuilder.add root path v =
      runComponents (parseComponents path.data) root v := by
  simp [JsonBuilder.add, hr, hp, hv]

/-- Unfolding `JsonBuilder.add` when `root` is not serializable. -/
theorem add_root_not_ser (root : JVal) (path : String) (v : JVal)
    (hr : serializable root = false) :
    JsonBuilder.add root path v = (some .notSerializable, root) := by
  simp [JsonBuilder.add, hr]

/-- Unfolding `JsonBuilder.add` when the path fails the regex check. -/
theorem add_bad_path (root : JVal) (path : String) (v : JVal)
    (hr : serializable root = true) (hp : checkPath path.data = false) :
    JsonBuilder.add root path v = (some .invalidPath, root) := by
  simp [JsonBuilder.add, hr, hp]

/-- Unfolding `JsonBuilder.add` when only `value` is not serializable. -/
theorem add_val_not_ser (root : JVal) (path : String) (v : JVal)
    (hr : serializable root = true) (hp : checkPath path.data = true)
    (hv : serializable v = false) :
    JsonBuilder.add root path v = (some .notSerializable, root) := by
  simp [JsonBuilder.add, hr, hp, hv]

/-- C1: the claim says an intermediate Index component at `index == length`
grows the sequence by exactly one and replaces the placeholder with the new
empty container, so that `add({}, "$.a[0].b", v)` yields
`{"a": [{"b": v}]}`.  The code instead `append`s the empty container as a
second element, leaves the `NotSet` placeholder at index 0, descends into
the placeholder and then fails with a type error: evaluating the code at
that very input gives root `{"a": [NotSet, {}]}` and a TypeMismatchError. -/
theorem c1_intermediate_index_growth :
    JsonBuilder.add (.obj []) "$.a[0].b" (.num 7) =
      (some .typeMismatch, .obj [(['a'], .arr [.notSet, .obj []])]) :=
  (add_eq_run (.obj []) "$.a[0].b" (.num 7) (by simp [serializable]) (by rfl)
    (by simp [serializable])).trans rfl

/-- C2: the claim says a segment `<name>[<idx>]...` parses to one Key for
the name plus one Index per bracketed integer, for every identifier of the
grammar, including names with digits or the letters y/z.  The code's segment
regex stops at `x`/`X` (so `y[0]` becomes a single Key `"y[0]"`) and its
digit extraction scans the whole segment (so `a1[0]` yields Index 1 followed
by Index 0), although both paths pass the up-front grammar check. -/
theorem c2_parser_segment_mismatch :
    parseComponents ("$.y[0]".data) = [.key ['$'], .key ['y', '[', '0', ']']]
    ∧ parseComponents ("$.a1[0]".data) =
        [.key ['$'], .key ['a', '1'], .idx 1, .idx 0]
    ∧ checkPath ("$.y[0]".data) = true
    ∧ checkPath ("$.a1[0]".data) = true :=
  ⟨rfl, rfl, rfl, rfl⟩

/-- C3: the claim says the `NotSet` marker never appears in the tree
reachable from root after any `add` call, normal or erroring.  Evaluating
the code on `add({}, "$.x[0].y", null)`: the walk raises a
TypeMismatchError and leaves root = `{"x": [NotSet, {}]}` — the sentinel
leaks into the caller-visible tree. -/
theorem c3_notset_leaks_into_tree :
    occursNotSet (JsonBuilder.add (.obj []) "$.x[0].y" .null).2 = true
    ∧ (JsonBuilder.add (.obj []) "$.x[0].y" .null).1 = some .typeMismatch := by
  have h : JsonBuilder.add (.obj []) "$.x[0].y" .null =
      (some .typeMismatch, .obj [(['x'], .arr [.notSet, .obj []])]) :=
    (add_eq_run (.obj []) "$.x[0].y" .null (by simp [serializable]) (by rfl)
      (by simp [serializable])).trans rfl
  rw [h]
  exact ⟨by simp [occursNotSet], rfl⟩

/-- C4: the claim says an intermediate Index component with
`index < length` leaves the sequence entirely unchanged and returns the
existing element.  The code does return the existing element, but also
appends a fresh empty container to the sequence: evaluating
`add({"a": [{}]}, "$.a[0].b", 5)` returns successfully with root
`{"a": [{"b": 5}, {}]}` — a spurious `{}` was appended. -/
theorem c4_existing_index_extra_append :
    JsonBuilder.add (.obj [(['a'], .arr [.obj []])]) "$.a[0].b" (.num 5) =
      (none, .obj [(['a'], .arr [.obj [(['b'], .num 5)], .obj []])]) :=
  (add_eq_run (.obj [(['a'], .arr [.obj []])]) "$.a[0].b" (.num 5)
    (by simp [serializable]) (by rfl) (by simp [serializable])).trans rfl

/-- `splitDot` never returns an empty list of segments. -/
theorem splitDot_shape (l : List Char) : ∃ s ss, splitDot l = s :: ss := by
  cases l with
  | nil => exact ⟨[], [], rfl⟩
  | cons c rest =>
    simp only [splitDot]
    split
    · exact ⟨_, _, rfl⟩
    · split
      · exact ⟨_, _, rfl⟩
      · exact ⟨_, _, rfl⟩

/-- Both branches of `segComponents` start with a Key component. -/
theorem segComponents_shape (item : List Char) :
    ∃ k cs, segComponents item = Component.key k :: cs := by
  unfold segComponents
  split
  · exact ⟨_, _, rfl⟩
  · exact ⟨_, _, rfl⟩

/-- For every path string the first parsed component is a Key component
(the first dot-segment always emits its Key first). -/
theorem parseComponents_shape (l : List Char) :
    ∃ k cs, parseComponents l = Component.key k :: cs := by
  unfold parseComponents
  obtain ⟨s, ss, hs⟩ := splitDot_shape l
  obtain ⟨k, cs, hk⟩ := segComponents_shape s
  refine ⟨k, cs ++ (ss.map segComponents).flatten, ?_⟩
  rw [hs]
  simp [hk]

/-- C6: an Index component fails with IndexGapError exactly when its index
strictly exceeds the current sequence length, and `add(root, "$.a[2]", v)`
fails with IndexGapError (leaving the tree unchanged) when `root["a"]` is an
empty or single-element sequence. -/
theorem c6_index_gap_iff (i : Nat) (xs : List JVal) (next : Option Component)
    (val : Option JVal) (v : JVal) (hv : serializable v = true) :
    (componentAdd (.idx i) (.arr xs) next val = .error .indexGap ↔
      xs.length < i)
    ∧ JsonBuilder.add (.obj [(['a'], .arr [])]) "$.a[2]" v =
        (some .indexGap, .obj [(['a'], .arr [])])
    ∧ JsonBuilder.add (.obj [(['a'], .arr [.null])]) "$.a[2]" v =
        (some .indexGap, .obj [(['a'], .arr [.null])]) := by
  refine ⟨⟨fun h => ?_, fun h => by simp [componentAdd, h]⟩, ?_, ?_⟩
  · by_contra hlt
    simp only [componentAdd, if_neg hlt] at h
    cases val with
    | some w => simp at h
    | none =>
      cases next with
      | none => simp at h
      | some c => cases c <;> simp at h
  · exact (add_eq_run (.obj [(['a'], .arr [])]) "$.a[2]" v
      (by simp [serializable]) (by rfl) hv).trans rfl
  · exact (add_eq_run (.obj [(['a'], .arr [.null])]) "$.a[2]" v
      (by simp [serializable]) (by rfl) hv).trans rfl

/-- Witness for C6 at `i = 2`, `xs = []`, `v = null`. -/
theorem c6_index_gap_iff_witness :
    (componentAdd (.idx 2) (.arr []) none none = .error .indexGap ↔
      ([] : List JVal).length < 2)
    ∧ JsonBuilder.add (.obj [(['a'], .arr [])]) "$.a[2]" .null =
        (some .indexGap, .obj [(['a'], .arr [])])
    ∧ JsonBuilder.add (.obj [(['a'], .arr [.null])]) "$.a[2]" .null =
        (some .indexGap, .obj [(['a'], .arr [.null])]) :=
  c6_index_gap_iff 2 [] none none .null (by simp [serializable])

/-- C9 counterexample: the claim quantifies over every JSON-serializable
root, but for a serializable non-mapping root the code raises a
TypeMismatchError (`ComponentKey.add` checks `isinstance(root, dict)`
before the `$` no-op): `add([], "$", null)` fails instead of returning the
root unchanged. -/
theorem c9_nonmapping_counterexample :
    serializable (.arr []) = true
    ∧ JsonBuilder.add (.arr []) "$" .null = (some .typeMismatch, .arr []) :=
  ⟨by simp [serializable],
    (add_eq_run (.arr []) "$" .null (by simp [serializable]) (by rfl)
      (by simp [serializable])).trans rfl⟩

/-- C9 (amended): for every JSON-serializable mapping root and serializable
value, `add(root, "$", v)` returns the root unchanged — a no-op that writes
`v` nowhere. -/
theorem c9_root_sentinel_noop (m : List (List Char × JVal)) (v : JVal)
    (hm : serializable (.obj m) = true) (hv : serializable v = true) :
    JsonBuilder.add (.obj m) "$" v = (none, .obj m) :=
  (add_eq_run (.obj m) "$" v hm (by rfl) hv).trans rfl

/-- Witness for C9's amended theorem at root `{}`, value `null`. -/
theorem c9_root_sentinel_noop_witness :
    JsonBuilder.add (.obj []) "$" .null = (none, .obj []) :=
  c9_root_sentinel_noop [] .null (by simp [serializable])
    (by simp [serializable])

/-- C10: for every serializable non-mapping root, grammar-valid path and
serializable value, `add` raises TypeMismatchError and leaves the root
unchanged: the parsed component list always starts with a Key component,
whose `add` type-checks the current node is a mapping before anything
else — including before the `$` no-op. -/
theorem c10_nonmapping_root_mismatch (root v : JVal) (path : String)
    (hobj : root.isObj = false) (hr : serializable root = true)
    (hp : checkPath path.data = true) (hv : serializable v = true) :
    JsonBuilder.add root path v = (some .typeMismatch, root) := by
  rw [add_eq_run root path v hr hp hv]
  obtain ⟨k, cs, hk⟩ := parseComponents_shape path.data
  rw [hk]
  cases root with
  | obj m => simp [JVal.isObj] at hobj
  | null => rfl
  | bool b => rfl
  | num n => rfl
  | str s => rfl
  | arr xs => rfl
  | notSet => rfl

/-- Witness for C10 at root `[]`, path `"$.a"`, value `null`. -/
theorem c10_nonmapping_root_mismatch_witness :
    JsonBuilder.add (.arr []) "$.a" .null = (some .typeMismatch, .arr []) :=
  c10_nonmapping_root_mismatch (.arr []) .null "$.a" rfl
    (by simp [serializable]) (by rfl) (by simp [serializable])

/-- The only errors a component application can raise are the type mismatch
and the index gap. -/
theorem componentAdd_error_kinds (c : Component) (node : JVal)
    (next : Option Component) (val : Option JVal) (e : JBError)
    (h : componentAdd c node next val = .error e) :
    e = .typeMismatch ∨ e = .indexGap := by
  cases c with
  | key k =>
    cases node with
    | obj m =>
      exfalso
      by_cases hk : k = ['$']
      · simp [componentAdd, hk] at h
      · cases val with
        | some w => simp [componentAdd, hk] at h
        | none =>
          cases hg : objGet m k with
          | some w => simp [componentAdd, hk, hg] at h
          | none =>
            cases next with
            | none => simp [componentAdd, hk, hg] at h
            | some c2 => cases c2 <;> simp [componentAdd, hk, hg] at h
    | null => simp [componentAdd] at h; exact Or.inl h.symm
    | bool b => simp [componentAdd] at h; exact Or.inl h.symm
    | num n => simp [componentAdd] at h; exact Or.inl h.symm
    | str s => simp [componentAdd] at h; exact Or.inl h.symm
    | arr xs => simp [componentAdd] at h; exact Or.inl h.symm
    | notSet => simp [componentAdd] at h; exact Or.inl h.symm
  | idx i =>
    cases node with
    | arr xs =>
      by_cases hlt : xs.length < i
      · simp [componentAdd, hlt] at h
        exact Or.inr h.symm
      · exfalso
        cases val with
        | some w => simp [componentAdd, hlt] at h
        | none =>
          cases next with
          | none => simp [componentAdd, hlt] at h
          | some c2 => cases c2 <;> simp [componentAdd, hlt] at h
    | null => simp [componentAdd] at h; exact Or.inl h.symm
    | bool b => simp [componentAdd] at h; exact Or.inl h.symm
    | num n => simp [componentAdd] at h; exact Or.inl h.symm
    | str s => simp [componentAdd] at h; exact Or.inl h.symm
    | obj m => simp [componentAdd] at h; exact Or.inl h.symm
    | notSet => simp [componentAdd] at h; exact Or.inl h.symm

/-- The traversal loop never raises the invalid-path error: that error only
comes from the up-front path check. -/
theorem runComponents_not_invalid (comps : List Component) (node v : JVal) :
    (runComponents comps node v).1 ≠ some .invalidPath := by
  induction comps generalizing node with
  | nil => simp [runComponents]
  | cons c rest ih =>
    simp only [runComponents]
    cases hca : componentAdd c node rest.head?
        (if rest.isEmpty then some v else none) with
    | error e =>
      rcases componentAdd_error_kinds c node _ _ e hca with he | he <;>
        subst he <;> simp
    | ok p =>
      obtain ⟨node2, step⟩ := p
      cases step with
      | stay => exact ih node2
      | intoKey k =>
        cases node2 with
        | obj m =>
          cases hg : objGet m k with
          | some child => simpa [hg] using ih child
          | none => simp [hg]
        | null => simp
        | bool b => simp
        | num n => simp
        | str s => simp
        | arr xs => simp
        | notSet => simp
      | intoIdx i =>
        cases node2 with
        | arr xs =>
          cases hx : xs[i]? with
          | some child => simpa [hx] using ih child
          | none => simp [hx]
        | null => simp
        | bool b => simp
        | num n => simp
        | str s => simp
        | obj m => simp
        | notSet => simp

/-- C7 counterexample: the claim's "if and only if" fails as stated — for a
non-serializable root and the non-matching path "a.b", `add` raises
NotSerializableError, not InvalidPathError, because the root
serializability check (src line 157) runs before the path check
(src line 158). -/
theorem c7_precedence_counterexample :
    ¬(((JsonBuilder.add .notSet "a.b" .null).1 = some .invalidPath) ↔
      checkPath ("a.b".data) = false) := by
  have h : JsonBuilder.add .notSet "a.b" .null =
      (some .notSerializable, .notSet) :=
    add_root_not_ser .notSet "a.b" .null (by simp [serializable])
  rw [h]
  intro hiff
  exact absurd (hiff.mpr (by rfl)) (by simp)

/-- C7 (amended): provided the root is JSON-serializable, `add` raises
InvalidPathError exactly when the path string fails the grammar
`^\$((\.[A-Za-z0-9]+)*(\[[0-9]+\])*)*$` (modelled by `checkPath`); the
error is raised before any mutation, the root coming back unchanged; in
particular "a.b" (missing the leading `$`) is rejected. -/
theorem c7_invalid_path_iff (root v : JVal) (path : String)
    (hr : serializable root = true) :
    ((JsonBuilder.add root path v).1 = some .invalidPath ↔
      checkPath path.data = false)
    ∧ (checkPath path.data = false →
        JsonBuilder.add root path v = (some .invalidPath, root))
    ∧ checkPath ("a.b".data) = false := by
  refine ⟨⟨fun h => ?_, fun hp => by rw [add_bad_path root path v hr hp]⟩,
    fun hp => add_bad_path root path v hr hp, rfl⟩
  by_contra hcp
  rw [Bool.not_eq_false] at hcp
  cases hv : serializable v with
  | false =>
    rw [add_val_not_ser root path v hr hcp hv] at h
    simp at h
  | true =>
    rw [add_eq_run root path v hr hcp hv] at h
    exact runComponents_not_invalid _ _ _ h

/-- Witness for C7's amended theorem at root `{}`, value `null`,
path "a.b". -/
theorem c7_invalid_path_iff_witness :
    (((JsonBuilder.add (.obj []) "a.b" .null).1 = some .invalidPath) ↔
      checkPath ("a.b".data) = false)
    ∧ (checkPath ("a.b".data) = false →
        JsonBuilder.add (.obj []) "a.b" .null = (some .invalidPath, .obj []))
    ∧ checkPath ("a.b".data) = false :=
  c7_invalid_path_iff (.obj []) .null "a.b" (by simp [serializable])

/-- C8 counterexample: the claim's universal quantification over every
path fails — with a serializable root, the invalid path "a.b" and a
non-serializable value, `add` raises InvalidPathError, not
NotSerializableError, because the path check (src line 158) runs before the
value serializability check (src line 159). -/
theorem c8_precedence_counterexample :
    serializable .notSet = false
    ∧ (JsonBuilder.add (.obj []) "a.b" .notSet).1 ≠ some .notSerializable := by
  refine ⟨by simp [serializable], ?_⟩
  rw [add_bad_path (.obj []) "a.b" .notSet (by simp [serializable]) (by rfl)]
  simp

/-- C8 (amended): if the root is not JSON-serializable, or the value is not
JSON-serializable and the path passes the grammar check, `add` fails with
NotSerializableError and the root comes back unchanged (the error precedes
any mutation); when only the value is unserializable and the path is also
invalid, InvalidPathError is raised first instead, still before any
mutation. -/
theorem c8_not_serializable_guard (root value : JVal) (path : String) :
    (serializable root = false →
      JsonBuilder.add root path value = (some .notSerializable, root))
    ∧ (serializable value = false → checkPath path.data = true →
      JsonBuilder.add root path value = (some .notSerializable, root)) := by
  refine ⟨fun hr => add_root_not_ser root path value hr, fun hv hp => ?_⟩
  cases hr : serializable root with
  | false => exact add_root_not_ser root path value hr
  | true => exact add_val_not_ser root path value hr hp hv

/-- Witness for C8's amended theorem: non-serializable root, and
serializable root with non-serializable value on a valid path. -/
theorem c8_not_serializable_guard_witness :
    JsonBuilder.add .notSet "$" .null = (some .notSerializable, .notSet)
    ∧ JsonBuilder.add (.obj []) "$" .notSet =
        (some .notSerializable, .obj []) :=
  ⟨(c8_not_serializable_guard .notSet .null "$").1 (by simp [serializable]),
   (c8_not_serializable_guard (.obj []) .notSet "$").2
     (by simp [serializable]) (by rfl)⟩

/-- A non-empty, all-alphanumeric key name (as allowed by the path
grammar between dots). -/
def alnumName (s : List Char) : Bool :=
  !s.isEmpty && s.all isAlnum

/-- Alphanumeric strings contain no dot. -/
theorem alnum_not_dot (s : List Char) (h : s.all isAlnum = true) :
    '.' ∉ s := by
  intro hmem
  have := List.all_eq_true.mp h '.' hmem
  simp [isAlnum, Char.isAlpha, Char.isDigit] at this

/-- Alphanumeric strings are never the one-character string `$`. -/
theorem alnum_ne_dollar (s : List Char) (h : s.all isAlnum = true) :
    ¬ s = ['$'] := by
  intro hs
  subst hs
  simp [isAlnum, Char.isAlpha, Char.isDigit] at h

/-- Scanning past alphanumeric characters stays in the name-continue
state. -/
theorem scanNameMore_append (nm rest : List Char)
    (h : nm.all isAlnum = true) :
    scanNameMore (nm ++ rest) = scanNameMore rest := by
  induction nm with
  | nil => rfl
  | cons x xs ih =>
    rw [List.all_cons, Bool.and_eq_true] at h
    rw [List.cons_append, scanNameMore, if_pos h.1]
    exact ih h.2

/-- A non-empty alphanumeric name satisfies the one-or-more-characters
state and lands in the name-continue state. -/
theorem scanName1_append (nm rest : List Char) (h : alnumName nm = true) :
    scanName1 (nm ++ rest) = scanNameMore rest := by
  rw [alnumName, Bool.and_eq_true] at h
  cases nm with
  | nil => simp at h
  | cons x xs =>
    rw [List.all_cons, Bool.and_eq_true] at h
    simp only [List.cons_append, scanName1, h.2.1, Bool.true_and]
    exact scanNameMore_append xs rest h.2.2

/-- From the name-continue state, a dot restarts a name atom. -/
theorem scanNameMore_dot (rest : List Char) :
    scanNameMore ('.' :: rest) = scanName1 rest := by
  simp [scanNameMore, isAlnum, Char.isAlpha, Char.isDigit]

/-- A lone non-empty alphanumeric name is accepted. -/
theorem scanName1_all (nm : List Char) (h : alnumName nm = true) :
    scanName1 nm = true := by
  have h2 := scanName1_append nm [] h
  rw [List.append_nil] at h2
  rw [h2]
  rfl

/-- Dotted key-only paths `$.<a>.<b>.<c>` with alphanumeric names pass the
path regex. -/
theorem checkPath_three_keys (a b c : List Char) (ha : alnumName a = true)
    (hb : alnumName b = true) (hc : alnumName c = true) :
    checkPath ('$' :: '.' :: (a ++ '.' :: (b ++ '.' :: c))) = true := by
  simp only [checkPath, scanAtom, if_pos rfl]
  rw [scanName1_append a _ ha, scanNameMore_dot,
    scanName1_append b _ hb, scanNameMore_dot, scanName1_all c hc]
  rfl

/-- Splitting at the first dot after a dot-free prefix. -/
theorem splitDot_sep (xs ys : List Char) (h : '.' ∉ xs) :
    splitDot (xs ++ '.' :: ys) = xs :: splitDot ys := by
  induction xs with
  | nil => simp [splitDot]
  | cons x xs ih =>
    have hx : ¬ x = '.' := fun hh => h (hh ▸ List.mem_cons_self x xs)
    have h2 : '.' ∉ xs := fun hh => h (List.mem_cons_of_mem x hh)
    rw [List.cons_append, splitDot, if_neg hx, ih h2]

/-- Splitting a dot-free string gives a single segment. -/
theorem splitDot_nodot (xs : List Char) (h : '.' ∉ xs) :
    splitDot xs = [xs] := by
  induction xs with
  | nil => rfl
  | cons x xs ih =>
    have hx : ¬ x = '.' := fun hh => h (hh ▸ List.mem_cons_self x xs)
    have h2 : '.' ∉ xs := fun hh => h (List.mem_cons_of_mem x hh)
    simp only [splitDot, if_neg hx, ih h2]

/-- An all-alphanumeric segment never matches the bracket-segment regex
(its first non-class character, if any, cannot be `[`). -/
theorem segMatches_alnum (s : List Char) (h : s.all isAlnum = true) :
    segMatches s = false := by
  unfold segMatches
  cases hd : s.dropWhile isSegClass with
  | nil => rfl
  | cons c rest =>
    have hc : c ∈ s := by
      have hsub : (List.dropWhile isSegClass s).Sublist s :=
        List.dropWhile_sublist isSegClass
      rw [hd] at hsub
      exact hsub.subset (List.mem_cons_self c rest)
    have hca : isAlnum c = true := List.all_eq_true.mp h c hc
    have hcne : (c == '[') = false := by
      cases hcc : c == '['
      · rfl
      · exfalso
        rw [beq_iff_eq] at hcc
        subst hcc
        simp [isAlnum, Char.isAlpha, Char.isDigit] at hca
    simp [hcne]

/-- An all-alphanumeric segment parses to a single Key component. -/
theorem segComponents_alnum (s : List Char) (h : s.all isAlnum = true) :
    segComponents s = [Component.key s] := by
  rw [segComponents, segMatches_alnum s h]
  rfl

/-- Extract the all-alphanumeric part of `alnumName`. -/
theorem alnumName_all (s : List Char) (h : alnumName s = true) :
    s.all isAlnum = true := by
  rw [alnumName, Bool.and_eq_true] at h
  exact h.2

/-- The dot-split of `$.<a>.<b>.<c>` for alphanumeric names. -/
theorem splitDot_three_keys (a b c : List Char) (ha : alnumName a = true)
    (hb : alnumName b = true) (hc : alnumName c = true) :
    splitDot ('$' :: '.' :: (a ++ '.' :: (b ++ '.' :: c))) =
      [['$'], a, b, c] := by
  have hda : '.' ∉ a := alnum_not_dot a (alnumName_all a ha)
  have hdb : '.' ∉ b := alnum_not_dot b (alnumName_all b hb)
  have hdc : '.' ∉ c := alnum_not_dot c (alnumName_all c hc)
  show splitDot (['$'] ++ '.' :: (a ++ '.' :: (b ++ '.' :: c))) = _
  rw [splitDot_sep ['$'] _ (by decide), splitDot_sep a _ hda,
    splitDot_sep b _ hdb, splitDot_nodot c hdc]

/-- Parsing `$.<a>.<b>.<c>` gives exactly the four Key components. -/
theorem parse_three_keys (a b c : List Char) (ha : alnumName a = true)
    (hb : alnumName b = true) (hc : alnumName c = true) :
    parseComponents ('$' :: '.' :: (a ++ '.' :: (b ++ '.' :: c))) =
      [.key ['$'], .key a, .key b, .key c] := by
  rw [parseComponents, splitDot_three_keys a b c ha hb hc]
  rw [List.map_cons, List.map_cons, List.map_cons, List.map_cons,
    List.map_nil]
  rw [segComponents_alnum a (alnumName_all a ha),
    segComponents_alnum b (alnumName_all b hb),
    segComponents_alnum c (alnumName_all c hc)]
  rfl

/-- Running the four Key components of a `$.<a>.<b>.<c>` path on an empty
mapping builds the three nested singleton mappings and stores the value at
the innermost key. -/
theorem run_three_keys (a b c : List Char) (ha2 : ¬ a = ['$'])
    (hb2 : ¬ b = ['$']) (hc2 : ¬ c = ['$']) (v : JVal) :
    runComponents [.key ['$'], .key a, .key b, .key c] (.obj []) v =
      (none, .obj [(a, .obj [(b, .obj [(c, v)])])]) := by
  simp [runComponents, componentAdd, objGet, objSet, ha2, hb2, hc2]

/-- C5: for every valid key-only path `$.<a>.<b>.<c>` (alphanumeric names),
`add({}, path, v)` produces the nested mappings with `v` at
`root[a][b][c]`; for terminal indices, `add({}, "$.a[0]", v)` yields
`{"a": [v]}` and a subsequent `add(root, "$.a[1]", v2)` yields
`{"a": [v, v2]}`. -/
theorem c5_build_paths (a b c : List Char) (ha : alnumName a = true)
    (hb : alnumName b = true) (hc : alnumName c = true) (v v2 : JVal)
    (hv : serializable v = true) (hv2 : serializable v2 = true) :
    JsonBuilder.add (.obj [])
        (String.mk ('$' :: '.' :: (a ++ '.' :: (b ++ '.' :: c)))) v =
      (none, .obj [(a, .obj [(b, .obj [(c, v)])])])
    ∧ JsonBuilder.add (.obj []) "$.a[0]" v = (none, .obj [(['a'], .arr [v])])
    ∧ JsonBuilder.add (.obj [(['a'], .arr [v])]) "$.a[1]" v2 =
        (none, .obj [(['a'], .arr [v, v2])]) := by
  refine ⟨?_, ?_, ?_⟩
  · rw [add_eq_run (.obj []) (String.mk ('$' :: '.' :: (a ++ '.' :: (b ++ '.' :: c)))) v
      (by simp [serializable]) (checkPath_three_keys a b c ha hb hc) hv]
    have hd : (String.mk ('$' :: '.' :: (a ++ '.' :: (b ++ '.' :: c)))).data =
        '$' :: '.' :: (a ++ '.' :: (b ++ '.' :: c)) := rfl
    rw [hd, parse_three_keys a b c ha hb hc]
    exact run_three_keys a b c (alnum_ne_dollar a (alnumName_all a ha))
      (alnum_ne_dollar b (alnumName_all b hb))
      (alnum_ne_dollar c (alnumName_all c hc)) v
  · exact (add_eq_run (.obj []) "$.a[0]" v (by simp [serializable]) (by rfl)
      hv).trans rfl
  · exact (add_eq_run (.obj [(['a'], .arr [v])]) "$.a[1]" v2
      (by simp [serializable, hv]) (by rfl) hv2).trans rfl

/-- Witness for C5 at names `p`, `q`, `r` and values `null`, `true`. -/
theorem c5_build_paths_witness :
    JsonBuilder.add (.obj [])
        (String.mk ('$' :: '.' :: (['p'] ++ '.' :: (['q'] ++ '.' :: ['r']))))
        .null =
      (none, .obj [(['p'], .obj [(['q'], .obj [(['r'], .null)])])])
    ∧ JsonBuilder.add (.obj []) "$.a[0]" .null =
        (none, .obj [(['a'], .arr [.null])])
    ∧ JsonBuilder.add (.obj [(['a'], .arr [.null])]) "$.a[1]" (.bool true) =
        (none, .obj [(['a'], .arr [.null, .bool true])]) :=
  c5_build_paths ['p'] ['q'] ['r'] (by decide) (by decide) (by decide)
    .null (.bool true) (by simp [serializable]) (by simp [serializable])
